import Mathlib

/-!
Verification of the job-trend pipeline core of this repository:
the date normalizer (`parse_relative_date`), the skill extractor
(`extract_skills_from_text`) and skill aggregator (`analyze_skills`) from
`utils/data_parser.py`, and the job record store (`store_jobs`,
`fetch_jobs`) from `utils/db_manager.py`.

Strings are modelled as `List Char`; Python `str` operations (`lower`,
`strip`, `split`, `replace`, `in`) and the fragments of `re` semantics the
code relies on are given explicit executable definitions below, restricted
to the ASCII behaviour the pipeline exercises. Dates are modelled as
integer day numbers (`Int`), so that `today - timedelta(days = n)` becomes
integer subtraction. The external `dateparser` library is modelled as an
abstract total function `String -> Option date` (its exceptions are caught
by the caller and collapse to `none`, which the `Option` codomain already
expresses).
-/

set_option maxRecDepth 8192

namespace JobTrend

/-- Shorthand turning a string literal into the character list we compute on. -/
def cs (s : String) : List Char := s.toList

/-- ASCII lower-casing of one character, the fragment of Python `str.lower`
the pipeline exercises (vocabulary and probe texts are ASCII). -/
def toLowerAscii (c : Char) : Char :=
  if 'A' ≤ c ∧ c ≤ 'Z' then Char.ofNat (c.toNat + 32) else c

/-- Python `str.lower` on a character list. -/
def pyLower (s : List Char) : List Char := s.map toLowerAscii

/-- Python whitespace (`str.strip` default set, ASCII fragment). -/
def isPySpace (c : Char) : Bool :=
  c = ' ' ∨ c = '\t' ∨ c = '\n' ∨ c = '\r' ∨ c = '\x0b' ∨ c = '\x0c'

/-- Python `str.strip` (both ends, default whitespace). -/
def pyStrip (s : List Char) : List Char :=
  ((s.dropWhile isPySpace).reverse.dropWhile isPySpace).reverse

/-- Python `needle in haystack` on strings: `p` occurs as a contiguous
substring of `s`. -/
def containsSub (s p : List Char) : Bool :=
  match s with
  | [] => p.isPrefixOf []
  | _ :: rest => p.isPrefixOf s || containsSub rest p

/-- Recursion worker for `replaceAll`, structurally recursive on a fuel
bound so that it evaluates in the kernel; the fuel is initialized to the
input length, which suffices because each step consumes at least one
character. -/
def replaceAllAux (pat rep : List Char) : Nat → List Char → List Char
  | _, [] => []
  | 0, s => s
  | fuel + 1, c :: rest =>
    if pat.isPrefixOf (c :: rest) ∧ ¬ pat.isEmpty then
      rep ++ replaceAllAux pat rep fuel ((c :: rest).drop pat.length)
    else c :: replaceAllAux pat rep fuel rest

/-- Python `str.replace(pat, rep)`: replace every non-overlapping occurrence
of `pat`, scanning left to right and continuing after each replacement.
The empty-pattern case never arises in the pipeline (patterns are literals
like `".js"`), and this matcher leaves such input unchanged. -/
def replaceAll (pat rep s : List Char) : List Char :=
  replaceAllAux pat rep s.length s

/-- Word character for `\b` in Python `re` (ASCII fragment: the vocabulary
and probe texts contain no non-ASCII letters). -/
def isWordChar (c : Char) : Bool := c.isAlphanum ∨ c = '_'

/-- Word-character test on an optional character; out-of-bounds positions
count as non-word, as in `re`. -/
def wordish : Option Char → Bool
  | none => false
  | some c => isWordChar c

/-- A `\b` boundary holds between two (possibly absent) characters when
exactly one of them is a word character. -/
def boundaryAt (a b : Option Char) : Bool := wordish a != wordish b

/-- Match of `\b<pat>\b` (with `pat` a `re.escape`d literal) anchored at the
current position, given the character just before that position. -/
def wbMatchAt (pat : List Char) (prev : Option Char) (text : List Char) : Bool :=
  pat.isPrefixOf text ∧ boundaryAt prev text.head? ∧
    boundaryAt pat.getLast? ((text.drop pat.length).head?)

/-- `re.search` of `\b<pat>\b`: try every position, tracking the preceding
character for the left boundary. -/
def wbSearch (pat : List Char) : Option Char → List Char → Bool
  | prev, [] => wbMatchAt pat prev []
  | prev, c :: rest => wbMatchAt pat prev (c :: rest) || wbSearch pat (some c) rest

/-- Whole-word occurrence of `pat` in `text` (`re.search(r'\b'+escaped+r'\b', text)`). -/
def wbMatch (pat text : List Char) : Bool := wbSearch pat none text

/-- The skill vocabulary of `utils/data_parser.py` (`COMMON_SKILLS`). The
source wraps this literal list in `sorted(list(set(...)))`, which only
fixes iteration order and removes duplicates; membership, which is all the
extractor's semantics depends on (its result is rebuilt as a sorted set),
is unchanged, so we keep the literal list. -/
def COMMON_SKILLS : List (List Char) :=
  [cs "python", cs "java", cs "c++", cs "c#", cs "javascript", cs "typescript",
   cs "html", cs "css", cs "sql", cs "nosql", cs "mongodb", cs "postgresql", cs "mysql",
   cs "react", cs "angular", cs "vue", cs "node.js", cs "express.js", cs "next.js",
   cs "reactjs", cs "vuejs", cs "angularjs",
   cs "django", cs "flask", cs "spring", cs "spring boot", cs ".net", cs "ruby on rails", cs "asp.net",
   cs "aws", cs "azure", cs "gcp", cs "docker", cs "kubernetes", cs "k8s", cs "terraform",
   cs "ansible", cs "ci/cd", cs "jenkins", cs "gitlab ci", cs "github actions",
   cs "machine learning", cs "ml", cs "deep learning", cs "dl", cs "data science",
   cs "data analysis", cs "artificial intelligence", cs "ai", cs "nlp", cs "computer vision",
   cs "pandas", cs "numpy", cs "scipy", cs "scikit-learn", cs "sklearn", cs "tensorflow",
   cs "keras", cs "pytorch", cs "opencv",
   cs "agile", cs "scrum", cs "kanban", cs "git", cs "github", cs "jira", cs "rest",
   cs "api", cs "graphql", cs "microservices", cs "restful apis",
   cs "big data", cs "hadoop", cs "spark", cs "kafka", cs "data warehousing", cs "etl",
   cs "data pipelines", cs "airflow",
   cs "cybersecurity", cs "information security", cs "penetration testing", cs "linux",
   cs "unix", cs "bash", cs "shell scripting",
   cs "devops", cs "sre", cs "ui/ux", cs "figma", cs "adobe xd", cs "sketch", cs "swift",
   cs "kotlin", cs "php", cs "laravel", cs "go", cs "golang", cs "rust", cs "scala",
   cs "power bi", cs "tableau", cs "excel", cs "communication", cs "problem solving",
   cs "teamwork", cs "leadership", cs "project management",
   cs "data visualization", cs "r", cs "statistics", cs "algorithms", cs "data structures",
   cs "oop", cs "object-oriented programming",
   cs "cloud computing", cs "serverless", cs "selenium", cs "beautifulsoup", cs "api development"]

/-- The hard-coded list of skills matched by plain substring containment
("Skills where \b might be tricky" in the source). -/
def specialSkills : List (List Char) :=
  [cs ".net", cs "c#", cs "c++", cs "node.js", cs "express.js", cs "react.js",
   cs "vue.js", cs "asp.net", cs "ui/ux"]

/-- One vocabulary token's match test against the lower-cased text:
substring containment for the special-cased tokens, else the
word-boundary regex. (`re.escape` makes the pattern a literal, so the
`except re.error` fallback in the source is dead code and has no
counterpart here.) -/
def matchSkill (text_lower : List Char) (skill : List Char) : Bool :=
  if specialSkills.contains skill then containsSub text_lower skill
  else wbMatch skill text_lower

/-- The `found_skills` set of `extract_skills_from_text`, as the sublist of
vocabulary tokens that match (empty tokens are skipped by the source's
`if not skill: continue` guard). -/
def found_skills (text_lower : List Char) : List (List Char) :=
  COMMON_SKILLS.filter (fun sk => !sk.isEmpty && matchSkill text_lower sk)

/-- The normalization conditional expression applied to each found skill
(`skill.replace('.js', 'js') if '.js' in skill else ...`); the later
equality-guarded branches are kept from the source even though the first
branch already covers them. -/
def normalizeSkill (sk : List Char) : List Char :=
  if containsSub sk (cs ".js") then replaceAll (cs ".js") (cs "js") sk
  else if sk = cs "react.js" then replaceAll (cs "react.js") (cs "reactjs") sk
  else if sk = cs "vue.js" then replaceAll (cs "vue.js") (cs "vuejs") sk
  else if sk = cs "express.js" then replaceAll (cs "express.js") (cs "expressjs") sk
  else if sk = cs "node.js" then replaceAll (cs "node.js") (cs "nodejs") sk
  else sk

/-- Strict lexicographic order on character lists, as Python compares
strings (by code point, a proper prefix sorting first). -/
def lexLt : List Char → List Char → Bool
  | [], [] => false
  | [], _ :: _ => true
  | _ :: _, [] => false
  | a :: as, b :: bs => if a < b then true else if a = b then lexLt as bs else false

/-- Insert into a strictly `lexLt`-sorted list, dropping duplicates. -/
def insertUniq (x : List Char) : List (List Char) → List (List Char)
  | [] => [x]
  | y :: ys =>
    if lexLt x y then x :: y :: ys
    else if x = y then y :: ys
    else y :: insertUniq x ys

/-- `sorted(list(set(l)))`: the strictly increasing enumeration of the
elements of `l`. -/
def sortedDedup (l : List (List Char)) : List (List Char) := l.foldr insertUniq []

/-- Embedding of `utils/data_parser.py: extract_skills_from_text`. The
`none` input covers Python `None`/`NaN`, and the empty string is falsy in
the `if not text_blob` guard. -/
def extract_skills_from_text (text_blob : Option (List Char)) : List (List Char) :=
  match text_blob with
  | none => []
  | some t =>
    if t.isEmpty then []
    else sortedDedup ((found_skills (pyLower t)).map normalizeSkill)

/-- A value of the `skills` column handed to `analyze_skills`: either a
string or an already-structured list of strings (the two `isinstance`
branches of the source). -/
inductive SkillEntry
  | str (s : List Char)
  | list (l : List (List Char))

/-- Python `str.split(',')`: split at every comma, keeping empty pieces. -/
def splitCommaAux (acc : List Char) : List Char → List (List Char)
  | [] => [acc.reverse]
  | c :: rest =>
    if c = ',' then acc.reverse :: splitCommaAux [] rest
    else splitCommaAux (c :: acc) rest

/-- Python `str.split(',')` on a character list. -/
def pySplitComma (s : List Char) : List (List Char) := splitCommaAux [] s

/-- The string branch of `analyze_skills`: strip, remove one layer of
surrounding brackets if present, split on commas, then keep the stripped,
lower-cased, nonempty fragments. -/
def processStr (s : List Char) : List (List Char) :=
  let cleaned := pyStrip s
  let cleaned2 :=
    if cleaned.head? = some '[' ∧ cleaned.getLast? = some ']'
    then (cleaned.drop 1).dropLast else cleaned
  ((pySplitComma cleaned2).filter (fun f => !(pyStrip f).isEmpty)).map
    (fun f => pyLower (pyStrip f))

/-- The list branch of `analyze_skills`: stringify (identity here), strip,
lower-case, keep nonempty. -/
def processList (l : List (List Char)) : List (List Char) :=
  (l.filter (fun f => !(pyStrip f).isEmpty)).map (fun f => pyLower (pyStrip f))

/-- Per-entry token extraction of `analyze_skills`, including the final
`filter(None, current_skills)` pass that drops empty strings. -/
def processEntry : SkillEntry → List (List Char)
  | .str s => (processStr s).filter (fun t => !t.isEmpty)
  | .list l => (processList l).filter (fun t => !t.isEmpty)

/-- Embedding of `utils/data_parser.py: analyze_skills`: the flat token
list accumulated into the `Counter`. `none` entries are the `NaN` values
removed by `dropna()`; the source's early return of an empty `Counter`
for an empty/absent series coincides with counting over the empty list. -/
def analyze_skills (entries : List (Option SkillEntry)) : List (List Char) :=
  (entries.filterMap id).flatMap processEntry

/-- The multiplicity the resulting `Counter` assigns to a token. -/
def skillCount (entries : List (Option SkillEntry)) (tok : List Char) : Nat :=
  (analyze_skills entries).count tok

/-- An incoming row of the DataFrame handed to `store_jobs`, after the
source's column-presence preamble (which only adds missing columns with
defaults; records here carry every column, with `none` standing for
`None`/`NaN` in the two columns the row loop inspects with `pd.isna`).
The other columns are passed through `str(...)`, so they are plain
strings here. -/
structure JobRecord where
  title : List Char
  company : List Char
  location : List Char
  skills : List Char
  date_posted : List Char
  parsed_date : Option (List Char)
  source : List Char
  search_keyword : List Char
  url : Option (List Char)
deriving DecidableEq

/-- A persisted row of the `jobs` table (the surrogate `id` is kept
implicit as the list position; `scraped_at` is the insertion-time
`CURRENT_TIMESTAMP` text). -/
structure StoredRow where
  title : List Char
  company : List Char
  location : List Char
  skills : List Char
  date_posted : List Char
  parsed_date : Option (List Char)
  source : List Char
  search_keyword : List Char
  url : List Char
  scraped_at : List Char
deriving DecidableEq

/-- Outcome of one `store_jobs` call: the table contents plus the three
counters the loop maintains. -/
structure StoreResult where
  db : List StoredRow
  inserted : Nat
  skipped : Nat
  errors : Nat
deriving DecidableEq

/-- The row built by the `INSERT` statement's `data_tuple`: every field
stringified, `parsed_date` passed as `NULL` when absent, and the `url`
bound as `str(row.get('url')).strip()`. -/
def insertRow (now : List Char) (r : JobRecord) (u : List Char) : StoredRow :=
  { title := r.title, company := r.company, location := r.location,
    skills := r.skills, date_posted := r.date_posted,
    parsed_date := r.parsed_date, source := r.source,
    search_keyword := r.search_keyword, url := u, scraped_at := now }

/-- One iteration of the `store_jobs` row loop: reject a `None`/`NaN` or
whitespace-only `url` as an error-skip; otherwise attempt the insert, and
classify a `UNIQUE constraint failed: jobs.url` violation (an existing row
with the same stripped url) as a duplicate-skip. -/
def storeStep (now : List Char) (acc : StoreResult) (r : JobRecord) : StoreResult :=
  match r.url with
  | none => { acc with errors := acc.errors + 1 }
  | some u0 =>
    if (pyStrip u0).isEmpty then { acc with errors := acc.errors + 1 }
    else if acc.db.any (fun row => row.url == pyStrip u0) then
      { acc with skipped := acc.skipped + 1 }
    else
      { acc with db := acc.db ++ [insertRow now r (pyStrip u0)],
                 inserted := acc.inserted + 1 }

/-- Embedding of `utils/db_manager.py: store_jobs`: fold the row loop over
the batch, starting from the current table contents; the returned
`inserted` counter is the function's return value. `now` is the shared
`CURRENT_TIMESTAMP` of the call. -/
def store_jobs (now : List Char) (db : List StoredRow) (records : List JobRecord) :
    StoreResult :=
  records.foldl (storeStep now) { db := db, inserted := 0, skipped := 0, errors := 0 }

/-- Recursion worker for SQLite `LIKE`, structurally recursive on a fuel
bound so that it evaluates in the kernel; every step shrinks the pattern
or the text, so fuel `|pattern| + |text| + 1` suffices. `%` matches any
run of characters, `_` exactly one; a literal character compares by
equality (the query lower-cases both operands, so `LIKE`'s own ASCII case
folding is already discharged). -/
def likeMatchAux : Nat → List Char → List Char → Bool
  | 0, _, _ => false
  | _ + 1, [], t => t.isEmpty
  | fuel + 1, c :: ps, t =>
    if c = '%' then
      likeMatchAux fuel ps t ||
        (match t with
         | [] => false
         | _ :: ts => likeMatchAux fuel (c :: ps) ts)
    else
      match t with
      | [] => false
      | d :: ts =>
        if c = '_' then likeMatchAux fuel ps ts
        else c == d && likeMatchAux fuel ps ts

/-- SQLite `pattern LIKE` match of `p` against `t`. -/
def likeMatch (p t : List Char) : Bool := likeMatchAux (p.length + t.length + 1) p t

/-- `COALESCE(parsed_date, '1970-01-01')`, the first `ORDER BY` key. -/
def dateKey (r : StoredRow) : List Char :=
  match r.parsed_date with
  | none => cs "1970-01-01"
  | some d => d

/-- Non-strict lexicographic order on character lists (SQLite compares
`TEXT` values bytewise). -/
def lexLe (a b : List Char) : Bool := lexLt a b || a == b

/-- `a` sorts no later than `b` under
`ORDER BY COALESCE(parsed_date,'1970-01-01') DESC, scraped_at DESC`. -/
def rowLe (a b : StoredRow) : Bool :=
  lexLt (dateKey b) (dateKey a) ||
    (dateKey a == dateKey b && lexLe b.scraped_at a.scraped_at)

/-- The output order of `fetch_jobs`, as a relation. -/
def rowOrd (a b : StoredRow) : Prop := rowLe a b = true

instance : DecidableRel rowOrd := fun a b => inferInstanceAs (Decidable (rowLe a b = true))

/-- The `WHERE` condition contributed by the `keyword` parameter:
`lower(search_keyword) LIKE lower('%<keyword>%')`. A `None` or empty
keyword is falsy in `if keyword:` and adds no condition. -/
def keywordCond (keyword : Option (List Char)) (r : StoredRow) : Bool :=
  match keyword with
  | none => true
  | some kw =>
    if kw.isEmpty then true
    else likeMatch (cs "%" ++ pyLower kw ++ cs "%") (pyLower r.search_keyword)

/-- The `WHERE` condition contributed by the `source` parameter:
`lower(source) = lower(?)`; `None`/empty is falsy and adds no condition. -/
def sourceCond (source : Option (List Char)) (r : StoredRow) : Bool :=
  match source with
  | none => true
  | some s => if s.isEmpty then true else pyLower r.source == pyLower s

/-- Embedding of `utils/db_manager.py: fetch_jobs` on an open store: apply
the `WHERE` conditions, then `ORDER BY COALESCE(parsed_date,'1970-01-01')
DESC, scraped_at DESC` (SQL fixes only the sortedness of the output; this
embedding realizes it with a stable insertion sort over insertion order).
The trailing pandas timestamp re-parsing is presentation and is omitted. -/
def fetch_jobs (keyword source : Option (List Char)) (db : List StoredRow) :
    List StoredRow :=
  List.insertionSort rowOrd
    (db.filter (fun r => keywordCond keyword r && sourceCond source r))

/-- Failure modes of the underlying store: `connectFailed` is
`sqlite3.connect` raising `sqlite3.Error` (the store cannot be opened,
before `query`/`params` are assigned); `queryFailed` is `pd.read_sql_query`
failing (pandas wraps the driver error into its own `DatabaseError`, which
is not a `sqlite3.Error`). -/
inductive DBError
  | connectFailed
  | queryFailed
deriving DecidableEq

/-- An exception escaping `fetch_jobs` itself: on the connect-failure path
the `except sqlite3.Error` handler's log f-string references `query` and
`params`, which are assigned only later inside the `try`, so the handler
raises `UnboundLocalError`; the sibling `except Exception` arm cannot
catch an exception raised inside another handler, so it propagates to the
caller. -/
inductive PyError
  | unboundLocal
deriving DecidableEq

/-- `fetch_jobs` including its exception handling. On `connectFailed` the
`except sqlite3.Error` arm itself raises `UnboundLocalError`, which
escapes `fetch_jobs`. On `queryFailed` the pandas `DatabaseError` is
caught by the `except Exception` arm (whose log line references neither
`query` nor `params`), which logs and falls through to return the
initially-empty DataFrame — a normal empty result. -/
def fetch_jobs_run (store : Except DBError (List StoredRow))
    (keyword source : Option (List Char)) : Except PyError (List StoredRow) :=
  match store with
  | .error .connectFailed => .error .unboundLocal
  | .error .queryFailed => .ok []
  | .ok db => .ok (fetch_jobs keyword source db)

/-! ### General lemmas about the string primitives -/

theorem lexLt_irrefl (l : List Char) : lexLt l l = false := by
  induction l with
  | nil => rfl
  | cons a as ih => simp [lexLt, lt_irrefl, ih]

theorem lexLt_trans : ∀ {a b c : List Char},
    lexLt a b = true → lexLt b c = true → lexLt a c = true := by
  intro a
  induction a with
  | nil =>
    intro b c hab hbc
    cases b with
    | nil => simp [lexLt] at hab
    | cons y ys =>
      cases c with
      | nil => simp [lexLt] at hbc
      | cons z zs => simp [lexLt]
  | cons x xs ih =>
    intro b c hab hbc
    cases b with
    | nil => simp [lexLt] at hab
    | cons y ys =>
      cases c with
      | nil => simp [lexLt] at hbc
      | cons z zs =>
        simp only [lexLt] at hab hbc ⊢
        by_cases hxy : x < y
        · by_cases hyz : y < z
          · simp [lt_trans hxy hyz]
          · simp [hyz] at hbc
            rcases hbc with ⟨rfl, -⟩
            simp [hxy]
        · simp [hxy] at hab
          rcases hab with ⟨rfl, hab⟩
          by_cases hyz : x < z
          · simp [hyz]
          · simp [hyz] at hbc ⊢
            rcases hbc with ⟨rfl, hbc⟩
            exact ⟨rfl, ih hab hbc⟩

theorem lexLt_connex : ∀ {a b : List Char},
    lexLt a b = false → lexLt b a = false → a = b := by
  intro a
  induction a with
  | nil =>
    intro b hab _
    cases b with
    | nil => rfl
    | cons y ys => simp [lexLt] at hab
  | cons x xs ih =>
    intro b hab hba
    cases b with
    | nil => simp [lexLt] at hba
    | cons y ys =>
      simp only [lexLt] at hab hba
      rcases lt_trichotomy x y with h | h | h
      · simp [h] at hab
      · subst h
        simp [lt_irrefl] at hab hba
        rw [ih hab hba]
      · simp [h] at hba

theorem lexLt_ne {a b : List Char} (h : lexLt a b = true) : a ≠ b := by
  intro heq
  subst heq
  rw [lexLt_irrefl] at h
  exact Bool.noConfusion h

theorem lexLt_total_of_ne {a b : List Char} (h : a ≠ b) :
    lexLt a b = true ∨ lexLt b a = true := by
  cases hab : lexLt a b with
  | true => exact Or.inl rfl
  | false =>
    cases hba : lexLt b a with
    | true => exact Or.inr rfl
    | false => exact absurd (lexLt_connex hab hba) h

/-! ### Lemmas about `insertUniq` and `sortedDedup` -/

theorem mem_insertUniq (x : List Char) (l : List (List Char)) (a : List Char) :
    a ∈ insertUniq x l ↔ a = x ∨ a ∈ l := by
  induction l with
  | nil => simp [insertUniq]
  | cons y ys ih =>
    rw [insertUniq]
    by_cases h1 : lexLt x y = true
    · rw [if_pos h1]
      simp [List.mem_cons]
    · rw [if_neg h1]
      by_cases h2 : x = y
      · rw [if_pos h2]
        subst h2
        simp [List.mem_cons]
      · rw [if_neg h2]
        simp only [List.mem_cons, ih]
        tauto

theorem pairwise_insertUniq (x : List Char) (l : List (List Char))
    (h : l.Pairwise (fun a b => lexLt a b = true)) :
    (insertUniq x l).Pairwise (fun a b => lexLt a b = true) := by
  induction l with
  | nil => simp [insertUniq]
  | cons y ys ih =>
    rcases List.pairwise_cons.mp h with ⟨hy, hys⟩
    rw [insertUniq]
    by_cases h1 : lexLt x y = true
    · rw [if_pos h1]
      refine List.pairwise_cons.mpr ⟨?_, h⟩
      intro b hb
      rcases List.mem_cons.mp hb with rfl | hb
      · exact h1
      · exact lexLt_trans h1 (hy b hb)
    · rw [if_neg h1]
      by_cases h2 : x = y
      · rw [if_pos h2]
        exact h
      · rw [if_neg h2]
        refine List.pairwise_cons.mpr ⟨?_, ih hys⟩
        intro b hb
        rcases (mem_insertUniq x ys b).mp hb with rfl | hb
        · rcases lexLt_total_of_ne h2 with hxy | hyx
          · exact absurd hxy h1
          · exact hyx
        · exact hy b hb

theorem pairwise_sortedDedup (l : List (List Char)) :
    (sortedDedup l).Pairwise (fun a b => lexLt a b = true) := by
  induction l with
  | nil => simp [sortedDedup]
  | cons a as ih => exact pairwise_insertUniq a _ ih

theorem nodup_sortedDedup (l : List (List Char)) : (sortedDedup l).Nodup :=
  (pairwise_sortedDedup l).imp (fun h => lexLt_ne h)

theorem mem_sortedDedup (l : List (List Char)) (a : List Char) :
    a ∈ sortedDedup l ↔ a ∈ l := by
  induction l with
  | nil => simp [sortedDedup]
  | cons x xs ih =>
    show a ∈ insertUniq x (sortedDedup xs) ↔ _
    rw [mem_insertUniq]
    simp [ih]

/-! ### Lemmas about the skill extractor -/

theorem vocab_nonempty : COMMON_SKILLS.all (fun sk => !sk.isEmpty) = true := by decide

theorem special_not_alnum :
    ∀ sk ∈ specialSkills, sk.all Char.isAlphanum = false := by decide

theorem normalize_ne_nodejs :
    ∀ sk ∈ COMMON_SKILLS, normalizeSkill sk ≠ cs "node.js" := by decide

theorem mem_found_skills (tl sk : List Char) :
    sk ∈ found_skills tl ↔
      sk ∈ COMMON_SKILLS ∧ sk.isEmpty = false ∧ matchSkill tl sk = true := by
  rw [found_skills, List.mem_filter]
  constructor
  · rintro ⟨h1, h2⟩
    rcases Bool.and_eq_true_iff.mp h2 with ⟨ha, hb⟩
    exact ⟨h1, by simpa using ha, hb⟩
  · rintro ⟨h1, h2, h3⟩
    exact ⟨h1, by simp [h2, h3]⟩

theorem mem_extract_skills (t tok : List Char) :
    tok ∈ extract_skills_from_text (some t) ↔
      t.isEmpty = false ∧
        ∃ sk ∈ found_skills (pyLower t), normalizeSkill sk = tok := by
  rw [extract_skills_from_text]
  by_cases ht : t.isEmpty = true
  · simp [ht]
  · have ht' : t.isEmpty = false := by simpa using ht
    rw [if_neg ht, mem_sortedDedup]
    simp only [List.mem_map]
    constructor
    · rintro ⟨sk, hsk, rfl⟩
      exact ⟨ht', sk, hsk, rfl⟩
    · rintro ⟨-, sk, hsk, rfl⟩
      exact ⟨sk, hsk, rfl⟩

/-- Claim C3: `extract_skills_from_text` matches plain alphanumeric
vocabulary tokens by word-boundary search and uses substring containment
only for the special-cased tokens, all of which bear a non-alphanumeric
character; in particular "Senior C++ Engineer" yields `c++` and
"We are going places" does not yield `go`. -/
theorem extract_skills_word_boundary :
    ((extract_skills_from_text (some (cs "Senior C++ Engineer"))).contains
        (cs "c++") = true) ∧
    ((extract_skills_from_text (some (cs "We are going places"))).contains
        (cs "go") = false) ∧
    (∀ tl sk, sk ∈ COMMON_SKILLS → sk.all Char.isAlphanum = true →
      (sk ∈ found_skills tl ↔ wbMatch sk tl = true)) ∧
    (∀ tl sk, sk ∈ specialSkills → sk ∈ COMMON_SKILLS →
      (sk ∈ found_skills tl ↔ containsSub tl sk = true)) ∧
    (∀ sk ∈ specialSkills, sk.all Char.isAlphanum = false) := by
  refine ⟨by decide, by decide, ?_, ?_, special_not_alnum⟩
  · intro tl sk hcs halnum
    rw [mem_found_skills]
    have hne : sk.isEmpty = false := by
      simpa using List.all_eq_true.mp vocab_nonempty sk hcs
    have hnotspecial : specialSkills.contains sk = false := by
      cases h : specialSkills.contains sk with
      | false => rfl
      | true =>
        have hmem : sk ∈ specialSkills := by simpa [List.elem_iff] using h
        rw [special_not_alnum sk hmem] at halnum
        exact Bool.noConfusion halnum
    rw [matchSkill, hnotspecial]
    simp [hcs, hne]
  · intro tl sk hsp hcs
    rw [mem_found_skills]
    have hne : sk.isEmpty = false := by
      simpa using List.all_eq_true.mp vocab_nonempty sk hcs
    have hspecial : specialSkills.contains sk = true := by
      simpa [List.elem_iff] using hsp
    rw [matchSkill, hspecial]
    simp [hcs, hne]

/-- Witness for C3: instantiating the quantified parts at concrete text
and tokens. -/
theorem extract_skills_word_boundary_witness :
    ((cs "go") ∈ found_skills (pyLower (cs "go and rust"))) ∧
    ((cs "c++") ∈ found_skills (pyLower (cs "loves c++!"))) := by
  obtain ⟨-, -, hc, hd, -⟩ := extract_skills_word_boundary
  constructor
  · exact (hc (pyLower (cs "go and rust")) (cs "go") (by decide) (by decide)).mpr
      (by decide)
  · exact (hd (pyLower (cs "loves c++!")) (cs "c++") (by decide) (by decide)).mpr
      (by decide)

/-- Claim C8: the extractor is a deterministic function, its result is a
strictly sorted (hence duplicate-free) list, absent/empty input yields the
empty list, and a text matching no vocabulary token yields the empty list;
the embedding is total, so no input produces an error. -/
theorem extract_skills_deterministic_sorted :
    ∀ text : Option (List Char),
      extract_skills_from_text text = extract_skills_from_text text ∧
      (extract_skills_from_text text).Pairwise (fun a b => lexLt a b = true) ∧
      (extract_skills_from_text text).Nodup ∧
      extract_skills_from_text none = [] ∧
      extract_skills_from_text (some (cs "")) = [] ∧
      (∀ t, found_skills (pyLower t) = [] →
        extract_skills_from_text (some t) = []) := by
  intro text
  refine ⟨rfl, ?_, ?_, rfl, rfl, ?_⟩
  · cases text with
    | none => simp [extract_skills_from_text]
    | some t =>
      rw [extract_skills_from_text]
      cases t.isEmpty with
      | true => simp
      | false => simpa using pairwise_sortedDedup _
  · cases text with
    | none => simp [extract_skills_from_text]
    | some t =>
      rw [extract_skills_from_text]
      cases t.isEmpty with
      | true => simp
      | false => simpa using nodup_sortedDedup _
  · intro t hfound
    rw [extract_skills_from_text]
    cases t.isEmpty with
    | true => simp
    | false => simp [hfound, sortedDedup]

/-- Witness for C8: a text with no vocabulary match yields the empty list. -/
theorem extract_skills_deterministic_sorted_witness :
    extract_skills_from_text (some (cs "zzz qqq")) = [] := by
  exact (extract_skills_deterministic_sorted (some (cs "zzz qqq"))).2.2.2.2.2
    (cs "zzz qqq") (by decide)

/-- Claim C9: whenever the vocabulary token `node.js` occurs in the
lower-cased text (its containment-based match), the extractor's output
contains the canonicalized spelling `nodejs` and never the raw `node.js`
(no vocabulary token normalizes to `node.js`). -/
theorem extract_skills_normalizes_nodejs :
    ∀ t : List Char, containsSub (pyLower t) (cs "node.js") = true →
      (cs "nodejs") ∈ extract_skills_from_text (some t) ∧
      (cs "node.js") ∉ extract_skills_from_text (some t) := by
  intro t hsub
  have htne : t.isEmpty = false := by
    cases t with
    | nil => exact absurd hsub (by decide)
    | cons c rest => rfl
  constructor
  · rw [mem_extract_skills]
    refine ⟨htne, cs "node.js", ?_, by decide⟩
    rw [mem_found_skills]
    refine ⟨by decide, by decide, ?_⟩
    rw [matchSkill]
    have : specialSkills.contains (cs "node.js") = true := by decide
    rw [this]
    simpa using hsub
  · intro hmem
    rw [mem_extract_skills] at hmem
    rcases hmem with ⟨-, sk, hsk, hnorm⟩
    have hcs : sk ∈ COMMON_SKILLS := ((mem_found_skills _ sk).mp hsk).1
    exact normalize_ne_nodejs sk hcs hnorm

/-- Witness for C9: a concrete text containing `node.js`. -/
theorem extract_skills_normalizes_nodejs_witness :
    (cs "nodejs") ∈ extract_skills_from_text (some (cs "We use Node.js daily")) ∧
    (cs "node.js") ∉ extract_skills_from_text (some (cs "We use Node.js daily")) :=
  extract_skills_normalizes_nodejs (cs "We use Node.js daily") (by decide)

/-! ### The skill aggregator -/

/-- Claim C7: `analyze_skills` skips absent entries, strips one layer of
surrounding brackets from string entries, splits on commas, trims, lower
cases, discards empty fragments, and counts per token; the spec's example
`["python, sql", "python, go"]` yields exactly python:2, sql:1, go:1 (four
tokens in total), the bracket/trim/empty behaviour is shown on
`"[ Python , , SQL ]"`, and only one bracket layer is removed
(`"[[a]]"` keeps the inner brackets). -/
theorem analyze_skills_counts :
    (∀ rest : List (Option SkillEntry),
      analyze_skills (none :: rest) = analyze_skills rest) ∧
    skillCount [some (.str (cs "python, sql")), some (.str (cs "python, go"))]
        (cs "python") = 2 ∧
    skillCount [some (.str (cs "python, sql")), some (.str (cs "python, go"))]
        (cs "sql") = 1 ∧
    skillCount [some (.str (cs "python, sql")), some (.str (cs "python, go"))]
        (cs "go") = 1 ∧
    (analyze_skills [some (.str (cs "python, sql")),
        some (.str (cs "python, go"))]).length = 4 ∧
    analyze_skills [some (.str (cs "[ Python , , SQL ]"))] =
        [cs "python", cs "sql"] ∧
    analyze_skills [some (.str (cs "[[a]]"))] = [cs "[a]"] := by
  refine ⟨?_, by decide, by decide, by decide, by decide, by decide, by decide⟩
  intro rest
  simp [analyze_skills]

/-! ### Lemmas about the record store -/

theorem any_url_iff (db : List StoredRow) (u : List Char) :
    db.any (fun row => row.url == u) = true ↔ u ∈ db.map (fun row => row.url) := by
  rw [List.any_eq_true]
  constructor
  · rintro ⟨row, hrow, hbeq⟩
    exact List.mem_map.mpr ⟨row, hrow, by simpa using hbeq⟩
  · intro h
    rcases List.mem_map.mp h with ⟨row, hrow, hu⟩
    exact ⟨row, hrow, by simp [hu]⟩

theorem store_foldl_db_ext (now : List Char) :
    ∀ (recs : List JobRecord) (acc : StoreResult),
      ∃ ext, (recs.foldl (storeStep now) acc).db = acc.db ++ ext := by
  intro recs
  induction recs with
  | nil => exact fun acc => ⟨[], by simp⟩
  | cons r rest ih =>
    intro acc
    rw [List.foldl_cons]
    rcases ih (storeStep now acc r) with ⟨ext, hext⟩
    rw [storeStep] at hext ⊢
    cases hr : r.url with
    | none => exact ⟨ext, by simpa [hr] using hext⟩
    | some u0 =>
      simp only [hr] at hext ⊢
      by_cases h1 : (pyStrip u0).isEmpty = true
      · exact ⟨ext, by simpa [h1] using hext⟩
      · simp only [h1, if_false] at hext ⊢
        by_cases h2 : acc.db.any (fun row => row.url == pyStrip u0) = true
        · exact ⟨ext, by simpa [h2] using hext⟩
        · simp only [h2, if_false] at hext
          exact ⟨insertRow now r (pyStrip u0) :: ext, by simpa [h2] using hext⟩

theorem store_foldl_len (now : List Char) :
    ∀ (recs : List JobRecord) (acc : StoreResult),
      (recs.foldl (storeStep now) acc).db.length + acc.inserted =
        acc.db.length + (recs.foldl (storeStep now) acc).inserted := by
  intro recs
  induction recs with
  | nil => intro acc; rfl
  | cons r rest ih =>
    intro acc
    rw [List.foldl_cons]
    have h := ih (storeStep now acc r)
    rw [storeStep] at h ⊢
    cases hr : r.url with
    | none => simpa [hr] using h
    | some u0 =>
      simp only [hr] at h ⊢
      by_cases h1 : (pyStrip u0).isEmpty = true
      · simpa [h1] using h
      · simp only [h1, if_false] at h ⊢
        by_cases h2 : acc.db.any (fun row => row.url == pyStrip u0) = true
        · rw [if_pos h2] at h ⊢
          exact h
        · simp [h2] at h ⊢
          omega

theorem store_foldl_nodup (now : List Char) :
    ∀ (recs : List JobRecord) (acc : StoreResult),
      (acc.db.map (fun row => row.url)).Nodup →
      ((recs.foldl (storeStep now) acc).db.map (fun row => row.url)).Nodup := by
  intro recs
  induction recs with
  | nil => exact fun acc h => h
  | cons r rest ih =>
    intro acc hacc
    rw [List.foldl_cons]
    refine ih (storeStep now acc r) ?_
    rw [storeStep]
    cases hr : r.url with
    | none => exact hacc
    | some u0 =>
      by_cases h1 : (pyStrip u0).isEmpty = true
      · simpa [h1] using hacc
      · simp only [h1, if_false]
        by_cases h2 : acc.db.any (fun row => row.url == pyStrip u0) = true
        · simpa [h2] using hacc
        · simp only [h2, if_false]
          have hnot : pyStrip u0 ∉ acc.db.map (fun row => row.url) := by
            intro hmem
            exact h2 ((any_url_iff acc.db (pyStrip u0)).mpr hmem)
          simp only [List.map_append, List.map_cons, List.map_nil, insertRow]
          simp [List.nodup_append, hacc, hnot]

theorem store_foldl_all_dup (now : List Char) :
    ∀ (recs : List JobRecord) (acc : StoreResult),
      (∀ r ∈ recs, ∃ u, r.url = some u ∧ (pyStrip u).isEmpty = false ∧
        acc.db.any (fun row => row.url == pyStrip u) = true) →
      (recs.foldl (storeStep now) acc).db = acc.db ∧
      (recs.foldl (storeStep now) acc).inserted = acc.inserted ∧
      (recs.foldl (storeStep now) acc).errors = acc.errors := by
  intro recs
  induction recs with
  | nil => exact fun acc _ => ⟨rfl, rfl, rfl⟩
  | cons r rest ih =>
    intro acc hall
    rcases hall r (List.mem_cons_self r rest) with ⟨u, hu, hne, hdup⟩
    rw [List.foldl_cons]
    have hstep : storeStep now acc r =
        { acc with skipped := acc.skipped + 1 } := by
      rw [storeStep, hu]
      simp [hne, hdup]
    rw [hstep]
    exact ih _ (fun r2 hr2 => by
      rcases hall r2 (List.mem_cons_of_mem r hr2) with ⟨u2, hu2, hne2, hdup2⟩
      exact ⟨u2, hu2, hne2, hdup2⟩)

/-- Claim C1: starting from any table whose urls are distinct, `store_jobs`
preserves at-most-one-row-per-url; its return value counts exactly the
newly inserted rows; a batch whose records all carry already-stored urls
inserts nothing and reports no errors (pure duplicate-skips); and a batch
of two records with the same (stripped) fresh url inserts exactly one row
and skips the second as a duplicate. -/
theorem store_jobs_url_unique :
    ∀ (now : List Char) (db : List StoredRow) (recs : List JobRecord),
      (db.map (fun row => row.url)).Nodup →
      ((store_jobs now db recs).db.map (fun row => row.url)).Nodup ∧
      (store_jobs now db recs).db.length =
        db.length + (store_jobs now db recs).inserted ∧
      ((∀ r ∈ recs, ∃ u, r.url = some u ∧ (pyStrip u).isEmpty = false ∧
          db.any (fun row => row.url == pyStrip u) = true) →
        (store_jobs now db recs).db = db ∧
        (store_jobs now db recs).inserted = 0 ∧
        (store_jobs now db recs).errors = 0) ∧
      (∀ r1 r2 : JobRecord, ∀ u1 u2 : List Char,
        r1.url = some u1 → r2.url = some u2 → pyStrip u1 = pyStrip u2 →
        (pyStrip u1).isEmpty = false →
        db.any (fun row => row.url == pyStrip u1) = false →
        (store_jobs now db [r1, r2]).inserted = 1 ∧
        (store_jobs now db [r1, r2]).skipped = 1 ∧
        (store_jobs now db [r1, r2]).db = db ++ [insertRow now r1 (pyStrip u1)]) := by
  intro now db recs hnodup
  refine ⟨?_, ?_, ?_, ?_⟩
  · exact store_foldl_nodup now recs _ (by simpa using hnodup)
  · have h := store_foldl_len now recs { db := db, inserted := 0, skipped := 0, errors := 0 }
    simpa [store_jobs] using h
  · intro hall
    have h := store_foldl_all_dup now recs
      { db := db, inserted := 0, skipped := 0, errors := 0 } (by simpa using hall)
    simpa [store_jobs] using h
  · intro r1 r2 u1 u2 hr1 hr2 heq hne hfresh
    have e1 : storeStep now { db := db, inserted := 0, skipped := 0, errors := 0 } r1 =
        { db := db ++ [insertRow now r1 (pyStrip u1)], inserted := 1,
          skipped := 0, errors := 0 } := by
      rw [storeStep, hr1]
      simp [hne, hfresh]
    have hne2 : (pyStrip u2).isEmpty = false := heq ▸ hne
    have hdup : (db ++ [insertRow now r1 (pyStrip u1)]).any
        (fun row => row.url == pyStrip u2) = true := by
      rw [List.any_append]
      refine Bool.or_eq_true_iff.mpr (Or.inr ?_)
      simp [insertRow, heq]
    have e2 : storeStep now
        { db := db ++ [insertRow now r1 (pyStrip u1)], inserted := 1,
          skipped := 0, errors := 0 } r2 =
        { db := db ++ [insertRow now r1 (pyStrip u1)], inserted := 1,
          skipped := 1, errors := 0 } := by
      rw [storeStep, hr2]
      simp [hne2, hdup]
    have : store_jobs now db [r1, r2] =
        { db := db ++ [insertRow now r1 (pyStrip u1)], inserted := 1,
          skipped := 1, errors := 0 } := by
      rw [store_jobs, List.foldl_cons, e1, List.foldl_cons, e2, List.foldl_nil]
    rw [this]
    exact ⟨rfl, rfl, rfl⟩

/-- Witness for C1: a two-record batch with the same url (up to stripping)
against the empty table inserts exactly one row and skips one duplicate. -/
theorem store_jobs_url_unique_witness :
    (store_jobs (cs "2024-01-01 00:00:00") []
      [⟨cs "T", cs "C", cs "L", cs "S", cs "D", none, cs "Src", cs "K",
          some (cs " http://a ")⟩,
       ⟨cs "T2", cs "C2", cs "L2", cs "S2", cs "D2", none, cs "Src", cs "K",
          some (cs "http://a")⟩]).inserted = 1 := by
  have h := store_jobs_url_unique (cs "2024-01-01 00:00:00") [] [] (by decide)
  exact (h.2.2.2
    ⟨cs "T", cs "C", cs "L", cs "S", cs "D", none, cs "Src", cs "K",
        some (cs " http://a ")⟩
    ⟨cs "T2", cs "C2", cs "L2", cs "S2", cs "D2", none, cs "Src", cs "K",
        some (cs "http://a")⟩
    (cs " http://a ") (cs "http://a") rfl rfl (by decide) (by decide)
    (by decide)).1

/-- Claim C10: `store_jobs` rejects a record whose url is absent or whose
url strips to the empty string (counting it as an error, inserting no
row), and a record that is inserted is persisted with its url stripped of
surrounding whitespace. -/
theorem store_jobs_strips_url :
    ∀ (now : List Char) (db : List StoredRow) (r : JobRecord),
      (r.url = none →
        store_jobs now db [r] =
          { db := db, inserted := 0, skipped := 0, errors := 1 }) ∧
      (∀ u, r.url = some u → (pyStrip u).isEmpty = true →
        store_jobs now db [r] =
          { db := db, inserted := 0, skipped := 0, errors := 1 }) ∧
      (∀ u, r.url = some u → (pyStrip u).isEmpty = false →
        db.any (fun row => row.url == pyStrip u) = false →
        (store_jobs now db [r]).db = db ++ [insertRow now r (pyStrip u)] ∧
        (insertRow now r (pyStrip u)).url = pyStrip u) := by
  intro now db r
  refine ⟨?_, ?_, ?_⟩
  · intro hr
    rw [store_jobs, List.foldl_cons, storeStep, hr, List.foldl_nil]
  · intro u hr hu
    rw [store_jobs, List.foldl_cons, storeStep, hr, List.foldl_nil]
    simp [hu]
  · intro u hr hu hfresh
    rw [store_jobs, List.foldl_cons, storeStep, hr, List.foldl_nil]
    refine ⟨?_, rfl⟩
    simp [hu, hfresh]

/-- Witness for C10: a whitespace-only url is rejected as an error, and an
inserted url is persisted stripped. -/
theorem store_jobs_strips_url_witness :
    store_jobs (cs "t0") []
        [⟨cs "T", cs "C", cs "L", cs "S", cs "D", none, cs "Src", cs "K",
            some (cs "   ")⟩] =
      { db := [], inserted := 0, skipped := 0, errors := 1 } ∧
    (store_jobs (cs "t0") []
        [⟨cs "T", cs "C", cs "L", cs "S", cs "D", none, cs "Src", cs "K",
            some (cs " http://b ")⟩]).db =
      [] ++ [insertRow (cs "t0")
        ⟨cs "T", cs "C", cs "L", cs "S", cs "D", none, cs "Src", cs "K",
            some (cs " http://b ")⟩ (pyStrip (cs " http://b "))] := by
  constructor
  · exact (store_jobs_strips_url (cs "t0") []
      ⟨cs "T", cs "C", cs "L", cs "S", cs "D", none, cs "Src", cs "K",
          some (cs "   ")⟩).2.1 (cs "   ") rfl (by decide)
  · exact ((store_jobs_strips_url (cs "t0") []
      ⟨cs "T", cs "C", cs "L", cs "S", cs "D", none, cs "Src", cs "K",
          some (cs " http://b ")⟩).2.2 (cs " http://b ") rfl (by decide)
      (by decide)).1

/-! ### Error behaviour of `fetch_jobs` (claim C5) -/

/-- Claim C5, split by failure path. Query failure (store opens but the
query fails): the `except Exception` arm swallows the pandas
`DatabaseError`, logs it, and returns a normal empty result that is
identical to fetching from an empty store — the claim's required
storage-unavailable condition never reaches the caller, which refutes the
claim for this path. Connect failure (store cannot be opened): an
exception does escape `fetch_jobs`, but only accidentally — the
`except sqlite3.Error` handler's own log f-string raises
`UnboundLocalError` — so the `app.py` health check fires on that path. -/
theorem fetch_jobs_swallows_query_error :
    ∀ (keyword source : Option (List Char)),
      fetch_jobs_run (Except.error DBError.queryFailed) keyword source =
          Except.ok [] ∧
      fetch_jobs_run (Except.error DBError.queryFailed) keyword source =
        fetch_jobs_run (Except.ok []) keyword source ∧
      fetch_jobs_run (Except.error DBError.connectFailed) keyword source =
          Except.error PyError.unboundLocal := by
  intro keyword source
  refine ⟨rfl, ?_, rfl⟩
  show Except.ok ([] : List StoredRow) = Except.ok (fetch_jobs keyword source [])
  rw [fetch_jobs]
  rfl

/-! ### Ordering facts for `fetch_jobs` -/

theorem rowLe_iff (a b : StoredRow) :
    rowLe a b = true ↔
      lexLt (dateKey b) (dateKey a) = true ∨
        (dateKey a = dateKey b ∧
          (lexLt b.scraped_at a.scraped_at = true ∨ b.scraped_at = a.scraped_at)) := by
  rw [rowLe, lexLe]
  simp [Bool.or_eq_true, Bool.and_eq_true, beq_iff_eq]

instance : IsTotal StoredRow rowOrd := by
  constructor
  intro a b
  show rowLe a b = true ∨ rowLe b a = true
  by_cases hd : dateKey a = dateKey b
  · by_cases hs : a.scraped_at = b.scraped_at
    · exact Or.inl ((rowLe_iff a b).mpr (Or.inr ⟨hd, Or.inr hs.symm⟩))
    · rcases lexLt_total_of_ne hs with h | h
      · exact Or.inr ((rowLe_iff b a).mpr (Or.inr ⟨hd.symm, Or.inl h⟩))
      · exact Or.inl ((rowLe_iff a b).mpr (Or.inr ⟨hd, Or.inl h⟩))
  · rcases lexLt_total_of_ne hd with h | h
    · exact Or.inr ((rowLe_iff b a).mpr (Or.inl h))
    · exact Or.inl ((rowLe_iff a b).mpr (Or.inl h))

instance : IsTrans StoredRow rowOrd := by
  constructor
  intro a b c hab hbc
  rcases (rowLe_iff a b).mp hab with h1 | ⟨h1, h1s⟩
  · rcases (rowLe_iff b c).mp hbc with h2 | ⟨h2, -⟩
    · exact (rowLe_iff a c).mpr (Or.inl (lexLt_trans h2 h1))
    · exact (rowLe_iff a c).mpr (Or.inl (h2 ▸ h1))
  · rcases (rowLe_iff b c).mp hbc with h2 | ⟨h2, h2s⟩
    · exact (rowLe_iff a c).mpr (Or.inl (h1 ▸ h2))
    · refine (rowLe_iff a c).mpr (Or.inr ⟨h1.trans h2, ?_⟩)
      rcases h1s with h1s | h1s
      · rcases h2s with h2s | h2s
        · exact Or.inl (lexLt_trans h2s h1s)
        · exact Or.inl (h2s ▸ h1s)
      · rcases h2s with h2s | h2s
        · exact Or.inl (h1s ▸ h2s)
        · exact Or.inr (h2s.trans h1s)

/-! ### SQLite `LIKE` versus substring containment -/

/-- Characters that are not `LIKE` wildcards. -/
def noWild (kw : List Char) : Prop := ∀ c ∈ kw, c ≠ '%' ∧ c ≠ '_'

instance (kw : List Char) : Decidable (noWild kw) :=
  List.decidableBAll (fun c => c ≠ '%' ∧ c ≠ '_') kw

theorem likeAux_percent_nil :
    ∀ (t : List Char) (fuel : Nat), 1 + t.length < fuel →
      likeMatchAux fuel ['%'] t = true := by
  intro t
  induction t with
  | nil =>
    intro fuel hf
    match fuel, hf with
    | f + 1, hf =>
      have hf1 : 0 < f := by omega
      match f, hf1 with
      | f2 + 1, _ => rfl
  | cons c ts ih =>
    intro fuel hf
    match fuel, hf with
    | f + 1, hf =>
      have : likeMatchAux f ['%'] ts = true := ih f (by simp at hf ⊢; omega)
      rw [likeMatchAux]
      simp [this]

theorem likeAux_literal :
    ∀ (kw : List Char), noWild kw → ∀ (t : List Char) (fuel : Nat),
      kw.length + 1 + t.length < fuel →
      likeMatchAux fuel (kw ++ ['%']) t = kw.isPrefixOf t := by
  intro kw
  induction kw with
  | nil =>
    intro _ t fuel hf
    have : likeMatchAux fuel ['%'] t = true := likeAux_percent_nil t fuel (by simpa using hf)
    simpa [List.isPrefixOf] using this
  | cons k ks ih =>
    intro hw t fuel hf
    rcases hw k (List.mem_cons_self k ks) with ⟨hk1, hk2⟩
    match fuel, hf with
    | f + 1, hf =>
      cases t with
      | nil =>
        rw [List.cons_append, likeMatchAux, if_neg hk1]
        rfl
      | cons d ts =>
        have hrec := ih (fun c hc => hw c (List.mem_cons_of_mem k hc)) ts f
          (by simp at hf ⊢; omega)
        rw [List.cons_append, likeMatchAux, if_neg hk1]
        show (if k = '_' then likeMatchAux f (ks ++ ['%']) ts
          else k == d && likeMatchAux f (ks ++ ['%']) ts) = _
        rw [if_neg hk2, hrec]
        rfl

theorem likeAux_outer :
    ∀ (kw : List Char), noWild kw → ∀ (t : List Char) (fuel : Nat),
      kw.length + 2 + t.length < fuel →
      likeMatchAux fuel ('%' :: (kw ++ ['%'])) t = containsSub t kw := by
  intro kw hw t
  induction t with
  | nil =>
    intro fuel hf
    match fuel, hf with
    | f + 1, hf =>
      rw [likeMatchAux, if_pos rfl]
      have := likeAux_literal kw hw [] f (by simp at hf ⊢; omega)
      simp only [this]
      rw [containsSub]
      simp
  | cons c ts ih =>
    intro fuel hf
    match fuel, hf with
    | f + 1, hf =>
      rw [likeMatchAux, if_pos rfl]
      have h1 := likeAux_literal kw hw (c :: ts) f (by simp at hf ⊢; omega)
      have h2 := ih f (by simp at hf ⊢; omega)
      rw [h1, h2, containsSub]

theorem likeMatch_eq_containsSub (kw t : List Char) (hw : noWild kw) :
    likeMatch (cs "%" ++ kw ++ cs "%") t = containsSub t kw := by
  have hcs : (cs "%" ++ kw ++ cs "%") = '%' :: (kw ++ ['%']) := by
    simp [cs]
  rw [likeMatch, hcs]
  refine likeAux_outer kw hw t _ ?_
  simp

/-- Claim C4, counterexample to the claim as stated: (1) the keyword
filter is SQL `LIKE`, not substring containment — the keyword `a_c`
(with the `_` wildcard) returns the record whose `search_keyword` is
`abc` although `a_c` is not a substring of it; (2) a record with null
`parsed_date` does not sort last — it is coalesced to `1970-01-01` and
precedes a record dated `1969-12-31`. -/
theorem fetch_jobs_claimed_filter_order_false :
    (fetch_jobs (some (cs "a_c")) none
        [⟨cs "T", cs "C", cs "L", cs "S", cs "D", none, cs "Src", cs "abc",
            cs "u1", cs "2024-01-01 00:00:00"⟩] =
      [⟨cs "T", cs "C", cs "L", cs "S", cs "D", none, cs "Src", cs "abc",
          cs "u1", cs "2024-01-01 00:00:00"⟩] ∧
     containsSub (pyLower (cs "abc")) (pyLower (cs "a_c")) = false) ∧
    (fetch_jobs none none
        [⟨cs "T1", cs "C", cs "L", cs "S", cs "D", some (cs "1969-12-31"),
            cs "Src", cs "k", cs "u1", cs "2024-06-01 00:00:00"⟩,
         ⟨cs "T2", cs "C", cs "L", cs "S", cs "D", none, cs "Src", cs "k",
            cs "u2", cs "2020-01-01 00:00:00"⟩] =
      [⟨cs "T2", cs "C", cs "L", cs "S", cs "D", none, cs "Src", cs "k",
          cs "u2", cs "2020-01-01 00:00:00"⟩,
       ⟨cs "T1", cs "C", cs "L", cs "S", cs "D", some (cs "1969-12-31"),
          cs "Src", cs "k", cs "u1", cs "2024-06-01 00:00:00"⟩]) := by
  refine ⟨⟨by decide, by decide⟩, by decide⟩

/-- Claim C4 (amended): `fetch_jobs` returns exactly the records whose
lower-cased `search_keyword` matches the SQL `LIKE` pattern
`%keyword%` — which for wildcard-free keywords is exactly case-insensitive
substring containment — ordered by `COALESCE(parsed_date, '1970-01-01')`
descending (nulls sort as `1970-01-01`), ties broken by `scraped_at`
descending; with no filters it returns all records, and an empty store
yields the empty sequence, not an error. -/
theorem fetch_jobs_like_filter_order :
    (∀ db : List StoredRow,
      List.Perm (fetch_jobs none none db) db ∧
      List.Sorted rowOrd (fetch_jobs none none db)) ∧
    (∀ (kw : List Char) (db : List StoredRow), kw.isEmpty = false →
      List.Perm (fetch_jobs (some kw) none db)
        (db.filter (fun r =>
          likeMatch (cs "%" ++ pyLower kw ++ cs "%") (pyLower r.search_keyword))) ∧
      List.Sorted rowOrd (fetch_jobs (some kw) none db)) ∧
    (∀ kw t : List Char, noWild kw →
      likeMatch (cs "%" ++ kw ++ cs "%") t = containsSub t kw) ∧
    (∀ keyword source, fetch_jobs keyword source [] = []) := by
  refine ⟨?_, ?_, likeMatch_eq_containsSub, ?_⟩
  · intro db
    have hfil : db.filter (fun r => keywordCond none r && sourceCond none r) = db := by
      simp [keywordCond, sourceCond]
    constructor
    · rw [fetch_jobs, hfil]
      exact List.perm_insertionSort rowOrd db
    · rw [fetch_jobs]
      exact List.sorted_insertionSort rowOrd _
  · intro kw db hkw
    have hfil : db.filter (fun r => keywordCond (some kw) r && sourceCond none r) =
        db.filter (fun r =>
          likeMatch (cs "%" ++ pyLower kw ++ cs "%") (pyLower r.search_keyword)) := by
      simp [keywordCond, sourceCond, hkw]
    constructor
    · rw [fetch_jobs, hfil]
      exact List.perm_insertionSort rowOrd _
    · rw [fetch_jobs]
      exact List.sorted_insertionSort rowOrd _
  · intro keyword source
    rfl

/-- Witness for the amended C4: instantiating the hypothesis-bearing parts
at concrete inputs. -/
theorem fetch_jobs_like_filter_order_witness :
    List.Sorted rowOrd (fetch_jobs (some (cs "x")) none []) ∧
    likeMatch (cs "%" ++ cs "ab" ++ cs "%") (cs "xabz") =
      containsSub (cs "xabz") (cs "ab") := by
  obtain ⟨-, h2, h3, -⟩ := fetch_jobs_like_filter_order
  exact ⟨(h2 (cs "x") [] (by decide)).2, h3 (cs "ab") (cs "xabz") (by decide)⟩

/-! ### Lemmas about the date normalizer -/

theorem pyLower_eq_self {s : List Char} (h : ∀ c ∈ s, toLowerAscii c = c) :
    pyLower s = s := by
  rw [pyLower, List.map_congr_left h, List.map_id']

end JobTrend

